import Mathlib

/-!
Shallow embedding of the incremental synchronization engine of the board-game
data worker (`src/processors/bggDataProcessor.js`): the row decoder, the
differ (`analyzeChanges` / `hasGameDataChanged`), the batch writer, the
resort/swap reindexer (`resortCollection`) and the orchestrating
`processCsvFile`, together with theorems checking the specification's claims
about them.

JavaScript numbers are modelled as exact rationals plus an explicit `NaN`
marker; machine floating point rounding is not modelled (the only numeric
operation compared is `|a - b| > 0.001` on values of the data set).  Store
collections are modelled as ordered lists of documents; MongoDB bulk writes
are modelled as atomic per batch.  Failure injection for the store is
modelled by oracles saying which operation fails.
-/

/-- Model of a JavaScript value as it occurs in a decoded CSV record or a
stored document: `undefined` (also standing for a deleted / absent key),
the number `NaN`, a finite number (an exact rational), a string, or a
boolean. -/
inductive JsVal where
  | undef
  | nan
  | num (q : ℚ)
  | str (s : String)
  | bool (b : Bool)
deriving DecidableEq

/-- Decoded game document: the nine keys built by the row handler of
`processCsvFile`.  A key deleted by the cleanup loop (which removes
`undefined`, `null` and `NaN` values) is represented as `JsVal.undef`,
since reading a deleted key yields `undefined`. -/
structure Game where
  id : JsVal
  name : JsVal
  year_published : JsVal
  rank : JsVal
  bayes_average : JsVal
  average : JsVal
  users_rated : JsVal
  is_expansion : JsVal
  abstracts_rank : JsVal
deriving DecidableEq

/-- JavaScript truthiness of a modelled value: `undefined`, `NaN`, `0`,
the empty string and `false` are falsy, everything else is truthy. -/
def truthy : JsVal → Bool
  | .undef => false
  | .nan => false
  | .num q => decide (q ≠ 0)
  | .str s => decide (s ≠ "")
  | .bool b => b

/-- Leading run of decimal digit characters. -/
def digitsPrefix (cs : List Char) : List Char := cs.takeWhile Char.isDigit

/-- Numeric value of a run of decimal digit characters. -/
def digitsToNat (cs : List Char) : ℕ := cs.foldl (fun a c => a * 10 + (c.toNat - 48)) 0

/-- Optional leading sign character: returns (negative?, remaining input). -/
def stripSignChars : List Char → Bool × List Char
  | '-' :: t => (true, t)
  | '+' :: t => (false, t)
  | t => (false, t)

/-- Leading whitespace skipped by the JavaScript numeric parsers. -/
def skipSpaces (cs : List Char) : List Char :=
  cs.dropWhile (fun c => c == ' ' || c == '\t' || c == '\n' || c == '\r')

/-- Model of JavaScript `parseInt(x)` applied to an optional CSV cell (a
missing cell is `undefined`, and `parseInt(undefined)` is `NaN`): skip
leading whitespace, read an optional sign and a maximal run of decimal
digits; no digits means `NaN`.  Hexadecimal prefixes and other radices do
not occur in the data and are not modelled. -/
def jsParseInt (cell : Option String) : JsVal :=
  match cell with
  | none => .nan
  | some s =>
    let p := stripSignChars (skipSpaces s.data)
    let ds := digitsPrefix p.2
    if ds.isEmpty then .nan
    else .num (if p.1 then -(digitsToNat ds : ℚ) else (digitsToNat ds : ℚ))

/-- Model of JavaScript `parseFloat(x)` applied to an optional CSV cell:
optional sign, integer digits, optional fractional digits after a decimal
point; at least one digit must be present, otherwise `NaN`.  The decimal
value `i.f` with `k` fractional digits is the exact rational
`(i * 10 ^ k + f) / 10 ^ k`.  Exponent notation does not occur in the data
and is not modelled. -/
def jsParseFloat (cell : Option String) : JsVal :=
  match cell with
  | none => .nan
  | some s =>
    let p := stripSignChars (skipSpaces s.data)
    let intDs := digitsPrefix p.2
    let rest := p.2.drop intDs.length
    let fracDs := match rest with
      | '.' :: t => digitsPrefix t
      | _ => []
    if intDs.isEmpty && fracDs.isEmpty then .nan
    else
      let numer : ℤ := (digitsToNat intDs : ℤ) * (10 : ℤ) ^ fracDs.length + (digitsToNat fracDs : ℤ)
      .num (mkRat (if p.1 then -numer else numer) ((10 : ℕ) ^ fracDs.length))

/-- One parsed CSV row as delivered by the csv-parser stream to the row
handler: each recognized column holds a string cell or is missing. -/
structure CsvRow where
  id : Option String
  name : Option String
  yearpublished : Option String
  rank : Option String
  bayesaverage : Option String
  average : Option String
  usersrated : Option String
  is_expansion : Option String
  abstracts_rank : Option String
deriving DecidableEq

/-- Cleanup step of the row handler: a key whose value is `undefined`,
`null` or a `NaN` number is deleted from the document; a deleted key reads
back as `undefined`. -/
def cleanVal : JsVal → JsVal
  | .nan => .undef
  | v => v

/-- Row handler of `processCsvFile`: build the game document field by field
with `parseInt` / `parseFloat` (`is_expansion` compares the cell against
the string `1`; `abstracts_rank` is parsed only when its cell is truthy),
then delete `undefined`/`NaN` fields. -/
def decodeRow (row : CsvRow) : Game where
  id := cleanVal (jsParseInt row.id)
  name := cleanVal (match row.name with | none => .undef | some s => .str s)
  year_published := cleanVal (jsParseInt row.yearpublished)
  rank := cleanVal (jsParseInt row.rank)
  bayes_average := cleanVal (jsParseFloat row.bayesaverage)
  average := cleanVal (jsParseFloat row.average)
  users_rated := cleanVal (jsParseInt row.usersrated)
  is_expansion := cleanVal (.bool (row.is_expansion == some "1"))
  abstracts_rank := cleanVal (match row.abstracts_rank with
    | some s => if s = "" then .undef else jsParseInt (some s)
    | none => .undef)

/-- One iteration of the row collection loop: the decoded document is
pushed onto `allRecords` only when both its `name` and its `id` are truthy
(`if (gameDoc.name && gameDoc.id) allRecords.push(gameDoc)`). -/
def pushRow (acc : List Game) (row : CsvRow) : List Game :=
  let gameDoc := decodeRow row
  if truthy gameDoc.name && truthy gameDoc.id then acc ++ [gameDoc] else acc

/-- Row collection loop of `processCsvFile` over the whole stream. -/
def processRows (rows : List CsvRow) : List Game :=
  rows.foldl pushRow []

/-- JavaScript strict inequality `a !== b` on modelled values (`NaN` is
strictly unequal to everything, including itself). -/
def jsStrictNe (a b : JsVal) : Bool :=
  match a, b with
  | .undef, .undef => false
  | .nan, _ => true
  | _, .nan => true
  | .num p, .num q => decide (p ≠ q)
  | .str s, .str t => decide (s ≠ t)
  | .bool x, .bool y => decide (x ≠ y)
  | _, _ => true

/-- Whether `typeof v === 'number'` holds for a modelled value (`NaN` is a
number in JavaScript). -/
def isNumberType : JsVal → Bool
  | .nan => true
  | .num _ => true
  | _ => false

/-- Whether the modelled value is the number `NaN`. -/
def isNaNVal : JsVal → Bool
  | .nan => true
  | _ => false

/-- The test `Math.abs(newValue - existingValue) > 0.001` of
`hasGameDataChanged`: on two finite numbers it is the exact comparison; any
arithmetic involving `NaN` yields `NaN`, and `NaN > 0.001` is false. -/
def numDiffExceedsTol (a b : JsVal) : Bool :=
  match a, b with
  | .num p, .num q => decide (|p - q| > (1 : ℚ) / 1000)
  | _, _ => false

/-- Per-field comparison of `hasGameDataChanged`: the field marks the record
changed when the two values are strictly unequal and either they are not
both numbers, or their absolute difference exceeds the `0.001` tolerance
(with the both-`NaN` pair explicitly skipped). -/
def fieldChanged (newValue existingValue : JsVal) : Bool :=
  if jsStrictNe newValue existingValue then
    if isNumberType newValue && isNumberType existingValue then
      if isNaNVal newValue && isNaNVal existingValue then false
      else numDiffExceedsTol newValue existingValue
    else true
  else false

/-- The fixed comparison set of `hasGameDataChanged`. -/
def fieldsToCompare : List (Game → JsVal) :=
  [Game.name, Game.year_published, Game.rank, Game.bayes_average,
   Game.average, Game.users_rated, Game.is_expansion, Game.abstracts_rank]

/-- The differ's record comparison `hasGameDataChanged(newGame, existingGame)`:
true when some field of the fixed comparison set changed. -/
def hasGameDataChanged (newGame existingGame : Game) : Bool :=
  fieldsToCompare.any fun f => fieldChanged (f newGame) (f existingGame)

/-- A stored document of the games collection: the comparable fields plus
the two timestamps (timestamps modelled as naturals). -/
structure StoredGame where
  data : Game
  date_created : ℕ
  date_updated : ℕ
deriving DecidableEq

/-- Result of `analyzeChanges`: the `New` and `Changed` partitions (in
source iteration order) and the count of unchanged records. -/
structure ChangesAnalysis where
  newGames : List Game
  updatedGames : List Game
  unchangedCount : ℕ
deriving DecidableEq

/-- One `Map.set` of the snapshot construction: entering a stored game
under its `id` overwrites any earlier entry with the same `id`. -/
def mapInsert (m : JsVal → Option StoredGame) (d : StoredGame) : JsVal → Option StoredGame :=
  fun k => if k = d.data.id then some d else m k

/-- The snapshot map built from `gamesCollection.find({})` by the
`existingGames.forEach(... set ...)` loop. -/
def buildMap (existingGames : List StoredGame) : JsVal → Option StoredGame :=
  existingGames.foldl mapInsert (fun _ => none)

/-- One iteration of the differ's loop: a record whose `id` misses the
snapshot is pushed onto `newGames`; one whose snapshot entry differs per
`hasGameDataChanged` is pushed onto `updatedGames`; otherwise the unchanged
counter is incremented. -/
def analyzeStep (existingGamesMap : JsVal → Option StoredGame) (acc : ChangesAnalysis)
    (newGame : Game) : ChangesAnalysis :=
  match existingGamesMap newGame.id with
  | none => { acc with newGames := acc.newGames ++ [newGame] }
  | some existingGame =>
    if hasGameDataChanged newGame existingGame.data
    then { acc with updatedGames := acc.updatedGames ++ [newGame] }
    else { acc with unchangedCount := acc.unchangedCount + 1 }

/-- The differ `analyzeChanges(newRecords, existingGamesMap)`. -/
def analyzeChanges (newRecords : List Game) (existingGamesMap : JsVal → Option StoredGame) :
    ChangesAnalysis :=
  newRecords.foldl (analyzeStep existingGamesMap) ⟨[], [], 0⟩

/-- Lexicographic strict order on character lists. -/
def charListLt : List Char → List Char → Bool
  | _, [] => false
  | [], _ :: _ => true
  | a :: as, b :: bs =>
    if a < b then true
    else if a = b then charListLt as bs
    else false

/-- Lexicographic strict order on strings. -/
def stringLt (s t : String) : Bool := charListLt s.data t.data

/-- Lower-cased copy of a string: the model of the case-insensitive
(`sensitivity: 'base'`) collation used by `localeCompare` in the engine.
Full ICU locale collation (accent folding etc.) is outside the embedding;
the comparison is modelled as lower-cased lexicographic order. -/
def lowerStr (s : String) : String := String.mk (s.data.map Char.toLower)

/-- String content of a name field: the resort comparator reads
`a.name || ''`, so an absent name compares as the empty string (non-string
values do not occur in the collections written by this engine). -/
def jsNameStr : JsVal → String
  | .str s => s
  | _ => ""

/-- Sort key of a decoded game for the pre-write sort
(`a.name.localeCompare(b.name, undefined, { sensitivity: 'base' })`). -/
def gameKey (g : Game) : String := lowerStr (jsNameStr g.name)

/-- Sort key of a stored games-collection document inside `resortCollection`. -/
def storedGameKey (d : StoredGame) : String := lowerStr (jsNameStr d.data.name)

/-- Stable insertion of an element into a sorted list: the element is placed
before the first strictly greater key, hence after every element with an
equal key. -/
def insertSortedBy {α : Type} (key : α → String) (a : α) : List α → List α
  | [] => [a]
  | b :: l => if stringLt (key a) (key b) then a :: b :: l else b :: insertSortedBy key a l

/-- Model of JavaScript `Array.prototype.sort` with a consistent comparator:
a stable sort (elements with equal keys keep their relative order). -/
def sortStableBy {α : Type} (key : α → String) (l : List α) : List α :=
  l.foldl (fun acc x => insertSortedBy key x acc) []

/-- The list handed to the batch writer: `[...newGames, ...updatedGames]`
sorted stably by the case-insensitive name comparator. -/
def gamesToProcess (A : ChangesAnalysis) : List Game :=
  sortStableBy gameKey (A.newGames ++ A.updatedGames)

/-- A stored document of the search collection:
`{ id, name, date_created, date_updated }`. -/
structure StoredSearch where
  id : JsVal
  name : JsVal
  date_created : ℕ
  date_updated : ℕ
deriving DecidableEq

/-- Sort key of a search-collection document inside `resortCollection`. -/
def storedSearchKey (d : StoredSearch) : String := lowerStr (jsNameStr d.name)

/-- The two store collections kept consistent by the engine, as ordered
lists of documents (MongoDB natural order). -/
structure Store where
  games : List StoredGame
  search : List StoredSearch
deriving DecidableEq

/-- MongoDB `$set` semantics on one field: a key absent from the update
document (modelled `undef`) leaves the stored value in place. -/
def mergeVal (oldV newV : JsVal) : JsVal :=
  match newV with
  | .undef => oldV
  | v => v

/-- MongoDB `$set` of a decoded game document onto a stored one: every
present key of the update document overwrites the stored key. -/
def mergeGame (oldG newG : Game) : Game where
  id := mergeVal oldG.id newG.id
  name := mergeVal oldG.name newG.name
  year_published := mergeVal oldG.year_published newG.year_published
  rank := mergeVal oldG.rank newG.rank
  bayes_average := mergeVal oldG.bayes_average newG.bayes_average
  average := mergeVal oldG.average newG.average
  users_rated := mergeVal oldG.users_rated newG.users_rated
  is_expansion := mergeVal oldG.is_expansion newG.is_expansion
  abstracts_rank := mergeVal oldG.abstracts_rank newG.abstracts_rank

/-- Update the first list element satisfying the filter (MongoDB
`updateOne`); the boolean reports whether a match was found. -/
def updateFirst {α : Type} (p : α → Bool) (f : α → α) : List α → List α × Bool
  | [] => ([], false)
  | a :: l =>
    if p a then (f a :: l, true)
    else
      let r := updateFirst p f l
      (a :: r.1, r.2)

/-- One games-collection upsert of the batch writer:
`updateOne({id}, { $set: {...gameDoc, date_updated: now}, $setOnInsert:
{date_created: now} }, upsert: true)`.  A missing match appends a fresh
document whose `date_created` and `date_updated` are both `now`. -/
def applyGameUpsert (coll : List StoredGame) (g : Game) (now : ℕ) : List StoredGame :=
  let r := updateFirst (fun d => d.data.id == g.id)
    (fun d => { d with data := mergeGame d.data g, date_updated := now }) coll
  if r.2 then r.1 else coll ++ [⟨g, now, now⟩]

/-- One search-collection upsert of the batch writer:
`updateOne({id}, { $set: {id, name, date_updated: now}, $setOnInsert:
{date_created: now} }, upsert: true)`. -/
def applySearchUpsert (coll : List StoredSearch) (g : Game) (now : ℕ) : List StoredSearch :=
  let r := updateFirst (fun d => d.id == g.id)
    (fun d => { d with id := g.id, name := g.name, date_updated := now }) coll
  if r.2 then r.1 else coll ++ [⟨g.id, g.name, now, now⟩]

/-- Apply one batch of upserts to both collections (one `bulkWrite` per
collection, modelled atomically). -/
def applyBatch (st : Store) (batch : List Game) (now : ℕ) : Store where
  games := batch.foldl (fun c g => applyGameUpsert c g now) st.games
  search := batch.foldl (fun c g => applySearchUpsert c g now) st.search

/-- Apply a sequence of batches in order. -/
def applyBatches (now : ℕ) (st : Store) (batches : List (List Game)) : Store :=
  batches.foldl (fun s b => applyBatch s b now) st

/-- Observable store interactions of one run, for the effect trace:
index creation, the CSV stream read, the snapshot read, `ensureConnection`
pings, each bulk-write attempt (batch index, attempt number, outcome), and
the two collection resorts. -/
inductive Effect where
  | createIndexes
  | readFile
  | snapshotRead
  | ping
  | bulkWrite (batch : ℕ) (attempt : ℕ) (ok : Bool)
  | resortGames
  | resortSearch
deriving DecidableEq

/-- Whether an effect writes to or reorders a collection. -/
def isWriteOrResort : Effect → Bool
  | .bulkWrite _ _ _ => true
  | .resortGames => true
  | .resortSearch => true
  | _ => false

/-- Outcome of the batch-writing loop: resulting store, effect trace,
`totalProcessed` counter, and the fatal error if the loop aborted. -/
structure WriteOut where
  store : Store
  trace : List Effect
  processed : ℕ
  err : Option String


/-- The batch-writing loop of `processCsvFile` over the already-chunked
batches, with failure-injection oracles (`ff` = first attempt of batch `i`
fails, `fr` = its retry fails).  A full batch (length exactly `batchSize`)
is written inside the loop: on failure the catch block pings the store and
retries exactly once, and a failed retry rejects the run.  The trailing
partial batch is written after the loop with no surrounding try/catch, so
its failure rejects the run with no retry.  Committed batches are never
rolled back. -/
def writeBatches (now bs : ℕ) (ff fr : ℕ → Bool) :
    Store → ℕ → List (List Game) → WriteOut
  | st, _, [] => ⟨st, [], 0, none⟩
  | st, i, b :: rest =>
    if b.length = bs then
      if ff i then
        if fr i then
          ⟨st, [.ping, .bulkWrite i 1 false, .ping, .bulkWrite i 2 false], 0,
           some "bulk write retry failed"⟩
        else
          let w := writeBatches now bs ff fr (applyBatch st b now) (i + 1) rest
          ⟨w.store, .ping :: .bulkWrite i 1 false :: .ping :: .bulkWrite i 2 true :: w.trace,
           b.length + w.processed, w.err⟩
      else
        let w := writeBatches now bs ff fr (applyBatch st b now) (i + 1) rest
        ⟨w.store, .ping :: .bulkWrite i 1 true :: w.trace, b.length + w.processed, w.err⟩
    else
      if ff i then ⟨st, [.ping, .bulkWrite i 1 false], 0, some "bulk write failed"⟩
      else ⟨applyBatch st b now, [.ping, .bulkWrite i 1 true], b.length, none⟩

/-- Split a list into successive batches, carrying the current batch like
the accumulation loop of the source (`cur` is the batch being filled). -/
def chunksAux {α : Type} (n : ℕ) : List α → List α → List (List α)
  | [], cur => if cur.isEmpty then [] else [cur]
  | a :: l, cur =>
    let cur' := cur ++ [a]
    if cur'.length = n then cur' :: chunksAux n l [] else chunksAux n l cur'

/-- Split a list into batches of size `n` (the final batch may be shorter). -/
def chunks {α : Type} (n : ℕ) (l : List α) : List (List α) := chunksAux n l []

/-- The steps of `resortCollection` at which a store failure can be
injected. -/
inductive RStep where
  | readAll
  | insertTemp
  | deleteAll
  | readTemp
  | insertBack
  | dropTemp
deriving DecidableEq

/-- State left by a (possibly failed) resort: the original collection, the
temporary staging collection, and the error raised inside the body, if
any. -/
structure ResortOutcome (α : Type) where
  main : List α
  temp : List α
  err : Option String


/-- Body of `resortCollection`, before its surrounding try/catch: read the
whole collection (no-op when empty), sort it by the case-insensitive name
comparator, insert the sorted documents into a temp collection, delete all
documents of the original collection, re-read the temp collection and
insert its contents back, then drop the temp collection.  The first
injected failure aborts the body, leaving the store in the state reached so
far (the batched inserts are modelled as one step each). -/
def resortBody {α : Type} (key : α → String) (docs : List α) (fails : RStep → Bool) :
    ResortOutcome α :=
  if fails .readAll then ⟨docs, [], some "read failed"⟩
  else if docs.isEmpty then ⟨docs, [], none⟩
  else
    let sorted := sortStableBy key docs
    if fails .insertTemp then ⟨docs, [], some "insert into temp failed"⟩
    else if fails .deleteAll then ⟨docs, sorted, some "delete failed"⟩
    else if fails .readTemp then ⟨[], sorted, some "read of temp failed"⟩
    else if fails .insertBack then ⟨[], sorted, some "insert back failed"⟩
    else if fails .dropTemp then ⟨sorted, sorted, some "drop of temp failed"⟩
    else ⟨sorted, [], none⟩

/-- The whole `resortCollection`: its body runs inside `try { ... } catch
(error) { console.error(...) }`, so any error of the body is logged and
discarded, and the function returns normally. -/
def resortCollection {α : Type} (key : α → String) (docs : List α) (fails : RStep → Bool) :
    ResortOutcome α :=
  let r := resortBody key docs fails
  ⟨r.main, r.temp, none⟩

/-- The run result object handed to `resolve`: the fields it carries are
`totalProcessed` (records written), `newGamesCount`, `updatedGamesCount`,
and - only on the no-change short-circuit - `noChanges` (an absent key is
`none`). -/
structure RunResult where
  totalProcessed : ℕ
  newGamesCount : ℕ
  updatedGamesCount : ℕ
  noChanges : Option Bool
deriving DecidableEq

/-- Complete outcome of one `processCsvFile` run: final store, effect
trace, and the settled promise (resolved result or rejection). -/
structure RunOut where
  store : Store
  trace : List Effect
  result : Except String RunResult

/-- Model of Node's `path.basename` for the paths the worker handles: the
suffix after the last path separator. -/
def basename (p : String) : String :=
  String.mk ((p.data.reverse.takeWhile (fun c => c ≠ '/')).reverse)

/-- Whether the first list occurs at the start of the second. -/
def listStartsWith {α : Type} [DecidableEq α] : List α → List α → Bool
  | [], _ => true
  | _ :: _, [] => false
  | a :: as, b :: bs => a == b && listStartsWith as bs

/-- Whether the first list occurs contiguously anywhere in the second. -/
def listContainsSub {α : Type} [DecidableEq α] (needle : List α) : List α → Bool
  | [] => needle.isEmpty
  | b :: t => listStartsWith needle (b :: t) || listContainsSub needle t

/-- JavaScript `hay.includes(needle)` on strings. -/
def strContainsSub (hay needle : String) : Bool := listContainsSub needle.data hay.data

/-- The run of `processCsvFile` after the decoded records were collected and
classified: short-circuit with `noChanges: true` when the change set is
empty; otherwise sort, write in batches, resort both collections (errors of
the resorts being swallowed inside `resortCollection`) and resolve with the
counters.  A batch-writer error rejects the run, keeping the store state
reached so far. -/
def runAfterDiff (A : ChangesAnalysis) (st : Store) (now bs : ℕ) (ff fr : ℕ → Bool)
    (rg rs : RStep → Bool) : RunOut :=
  if A.newGames.isEmpty && A.updatedGames.isEmpty then
    ⟨st, [.createIndexes, .readFile, .snapshotRead], .ok ⟨0, 0, 0, some true⟩⟩
  else
    let w := writeBatches now bs ff fr st 0 (chunks bs (gamesToProcess A))
    match w.err with
    | some e => ⟨w.store, [.createIndexes, .readFile, .snapshotRead] ++ w.trace, .error e⟩
    | none =>
      ⟨⟨(resortCollection storedGameKey w.store.games rg).main,
        (resortCollection storedSearchKey w.store.search rs).main⟩,
       [.createIndexes, .readFile, .snapshotRead] ++ w.trace ++ [.resortGames, .resortSearch],
       .ok ⟨w.processed, A.newGames.length, A.updatedGames.length, none⟩⟩

/-- The whole `processCsvFile` run: the filename guard rejects any path
whose base name does not contain `boardgames_ranks` before any file or
store access; otherwise indexes are created, the file is decoded, the
snapshot is read and diffed, and the run proceeds as in `runAfterDiff`.
`isLocalhost` selects the batch size (500 locally, 1000 otherwise);
`ff`/`fr` inject bulk-write failures and `rg`/`rs` inject resort
failures. -/
def processCsvFile (csvPath : String) (rows : List CsvRow) (st : Store) (now : ℕ)
    (isLocalhost : Bool) (ff fr : ℕ → Bool) (rg rs : RStep → Bool) : RunOut :=
  if strContainsSub (basename csvPath) "boardgames_ranks" then
    runAfterDiff (analyzeChanges (processRows rows) (buildMap st.games)) st now
      (if isLocalhost then 500 else 1000) ff fr rg rs
  else ⟨st, [], .error "Only boardgames_ranks.csv is supported."⟩

/-- Specification-side field match: two values agree within the spec's
`0.001` absolute tolerance - equal strings, equal booleans, both-absent, or
two finite numbers within `0.001` of each other. -/
def valMatches (n e : JsVal) : Bool :=
  match n, e with
  | .num p, .num q => decide (|p - q| ≤ (1 : ℚ) / 1000)
  | .undef, .undef => true
  | .str s, .str t => decide (s = t)
  | .bool x, .bool y => decide (x = y)
  | _, _ => false

/-- Whether none of the compared fields of a game document is `NaN` (true of
every decoded record, whose cleanup deletes `NaN` fields, and of every
record the engine itself writes). -/
def gameNanFree (g : Game) : Bool :=
  fieldsToCompare.all fun f => !isNaNVal (f g)

/-- Predicate for the `New` partition: the record's `id` misses the
snapshot. -/
def isNewPred (m : JsVal → Option StoredGame) (g : Game) : Bool :=
  (m g.id).isNone

/-- Predicate for the `Changed` partition: the snapshot holds the `id` and
`hasGameDataChanged` reports a difference. -/
def isChangedPred (m : JsVal → Option StoredGame) (g : Game) : Bool :=
  match m g.id with
  | some d => hasGameDataChanged g d.data
  | none => false

/-- Predicate for the `Unchanged` tally: the snapshot holds the `id` and
`hasGameDataChanged` reports no difference. -/
def isUnchangedPred (m : JsVal → Option StoredGame) (g : Game) : Bool :=
  match m g.id with
  | some d => !hasGameDataChanged g d.data
  | none => false

/-- Sample CSV row: a new game with id 1 and name Ant, all other cells
missing. -/
def sampleRowAnt : CsvRow := ⟨some "1", some "Ant", none, none, none, none, none, none, none⟩

/-- Sample CSV row: a game with id 2 and name Zed, all other cells
missing. -/
def sampleRowZed : CsvRow := ⟨some "2", some "Zed", none, none, none, none, none, none, none⟩

/-- Sample stored document matching `sampleRowZed` exactly (so a run over it
classifies the row Unchanged). -/
def sampleDocZed : StoredGame := ⟨decodeRow sampleRowZed, 1, 1⟩

/-- Sample CSV row with an id cell but no name cell. -/
def sampleRowIdOnly : CsvRow := ⟨some "5", none, none, none, none, none, none, none, none⟩

/-- Sample CSV row: id 2, name Xa (used with a snapshot whose rank differs,
so the row is classified Changed). -/
def sampleRowXaChanged : CsvRow :=
  ⟨some "2", some "Xa", none, none, none, none, none, none, none⟩

/-- Sample CSV row: id 1, name Xa, absent from the snapshot (classified
New). -/
def sampleRowXaNew : CsvRow := ⟨some "1", some "Xa", none, none, none, none, none, none, none⟩

/-- Sample stored document for id 2 whose `rank` is present while the
decoded row's rank is absent, making the row Changed. -/
def sampleDocXa : StoredGame := ⟨{ decodeRow sampleRowXaChanged with rank := JsVal.num 5 }, 1, 1⟩

/-- Sample decoded game document with a couple of present fields. -/
def sampleGame : Game :=
  ⟨.num 7, .str "Gloom", .num 2004, .undef, .undef, .undef, .undef, .bool false, .undef⟩

theorem pushRow_foldl (rows : List CsvRow) :
    ∀ acc : List Game,
      rows.foldl pushRow acc =
        acc ++ (rows.filter fun r => truthy (decodeRow r).name && truthy (decodeRow r).id).map
          decodeRow := by
  induction rows with
  | nil => intro acc; simp
  | cons r rs ih =>
    intro acc
    by_cases h : (truthy (decodeRow r).name && truthy (decodeRow r).id) = true
    · simp [pushRow, h, ih, List.filter_cons]
    · simp only [Bool.not_eq_true] at h
      simp [pushRow, h, ih, List.filter_cons]

theorem processRows_eq (rows : List CsvRow) :
    processRows rows =
      (rows.filter fun r => truthy (decodeRow r).name && truthy (decodeRow r).id).map
        decodeRow := by
  simpa using pushRow_foldl rows []

theorem cleanVal_not_nan (v : JsVal) : isNaNVal (cleanVal v) = false := by
  cases v <;> rfl

theorem decodeRow_nanFree (row : CsvRow) : gameNanFree (decodeRow row) = true := by
  simp [gameNanFree, fieldsToCompare, decodeRow, cleanVal_not_nan]

theorem processRows_nanFree (rows : List CsvRow) :
    ∀ g ∈ processRows rows, gameNanFree g = true := by
  intro g hg
  rw [processRows_eq] at hg
  obtain ⟨r, -, rfl⟩ := List.mem_map.mp hg
  exact decodeRow_nanFree r

theorem analyzeStep_foldl (m : JsVal → Option StoredGame) (recs : List Game) :
    ∀ acc : ChangesAnalysis,
      recs.foldl (analyzeStep m) acc =
        ⟨acc.newGames ++ recs.filter (isNewPred m),
         acc.updatedGames ++ recs.filter (isChangedPred m),
         acc.unchangedCount + (recs.filter (isUnchangedPred m)).length⟩ := by
  induction recs with
  | nil => intro acc; simp
  | cons g gs ih =>
    intro acc
    simp only [List.foldl_cons, ih]
    cases hm : m g.id with
    | none =>
      simp [analyzeStep, hm, isNewPred, isChangedPred, isUnchangedPred, List.filter_cons]
    | some d =>
      by_cases hch : hasGameDataChanged g d.data = true
      · simp [analyzeStep, hm, hch, isNewPred, isChangedPred, isUnchangedPred, List.filter_cons]
      · simp only [Bool.not_eq_true] at hch
        simp only [analyzeStep, hm, hch]
        simp [isNewPred, isChangedPred, isUnchangedPred, hm, hch, List.filter_cons,
          Nat.add_assoc, Nat.add_comm 1]

theorem analyzeChanges_eq (recs : List Game) (m : JsVal → Option StoredGame) :
    analyzeChanges recs m =
      ⟨recs.filter (isNewPred m), recs.filter (isChangedPred m),
       (recs.filter (isUnchangedPred m)).length⟩ := by
  simpa [analyzeChanges] using analyzeStep_foldl m recs ⟨[], [], 0⟩

theorem buildMap_foldl_mem (l : List StoredGame) :
    ∀ (m0 : JsVal → Option StoredGame) (k : JsVal) (d : StoredGame),
      (l.foldl mapInsert m0) k = some d → d ∈ l ∨ m0 k = some d := by
  induction l with
  | nil => intro m0 k d h; exact .inr h
  | cons a l ih =>
    intro m0 k d h
    rcases ih (mapInsert m0 a) k d h with h1 | h1
    · exact .inl (List.mem_cons_of_mem a h1)
    · unfold mapInsert at h1
      split at h1
      · cases h1; exact .inl (List.mem_cons_self a l)
      · exact .inr h1

theorem buildMap_mem (l : List StoredGame) (k : JsVal) (d : StoredGame)
    (h : buildMap l k = some d) : d ∈ l := by
  rcases buildMap_foldl_mem l (fun _ => none) k d h with h1 | h1
  · exact h1
  · cases h1

theorem fieldChanged_num_num (p q : ℚ) :
    fieldChanged (.num p) (.num q) = !valMatches (.num p) (.num q) := by
  by_cases hpq : p = q
  · subst hpq
    norm_num [fieldChanged, jsStrictNe, valMatches]
  · have h1 : fieldChanged (.num p) (.num q) = decide ((1 : ℚ) / 1000 < |p - q|) := by
      simp [fieldChanged, jsStrictNe, isNumberType, isNaNVal, numDiffExceedsTol, hpq]
    have h2 : valMatches (.num p) (.num q) = decide (|p - q| ≤ (1 : ℚ) / 1000) := rfl
    rw [h1, h2, ← decide_not]
    exact decide_eq_decide.mpr not_le.symm

theorem fieldChanged_eq_not_match (n e : JsVal) (hn : isNaNVal n = false)
    (he : isNaNVal e = false) : fieldChanged n e = !valMatches n e := by
  cases n <;> cases e <;>
    first
    | (exact Bool.noConfusion hn)
    | (exact Bool.noConfusion he)
    | (exact fieldChanged_num_num ..)
    | (simp [fieldChanged, jsStrictNe, isNumberType, isNaNVal, numDiffExceedsTol, valMatches])

theorem any_not_all {α : Type} (l : List α) (p q : α → Bool)
    (h : ∀ a ∈ l, p a = !q a) : l.any p = !l.all q := by
  induction l with
  | nil => rfl
  | cons a l ih =>
    simp only [List.any_cons, List.all_cons, Bool.not_and]
    rw [h a (List.mem_cons_self a l), ih fun b hb => h b (List.mem_cons_of_mem a hb)]

theorem hasChanged_iff_not_matches (g e : Game) (hg : gameNanFree g = true)
    (he : gameNanFree e = true) :
    hasGameDataChanged g e = !(fieldsToCompare.all fun f => valMatches (f g) (f e)) := by
  apply any_not_all
  intro f hf
  have h1 : isNaNVal (f g) = false := by
    have := (List.all_eq_true.mp hg) f hf
    simpa using this
  have h2 : isNaNVal (f e) = false := by
    have := (List.all_eq_true.mp he) f hf
    simpa using this
  exact fieldChanged_eq_not_match (f g) (f e) h1 h2

theorem charListLt_irrefl (xs : List Char) : charListLt xs xs = false := by
  induction xs with
  | nil => rfl
  | cons a as ih => simp [charListLt, lt_irrefl, ih]

theorem charListLt_asymm : ∀ xs ys : List Char,
    charListLt xs ys = true → charListLt ys xs = false := by
  intro xs
  induction xs with
  | nil =>
    intro ys h
    cases ys with
    | nil => simp [charListLt] at h
    | cons b bs => rfl
  | cons a as ih =>
    intro ys h
    cases ys with
    | nil => simp [charListLt] at h
    | cons b bs =>
      by_cases hab : a < b
      · have h1 : ¬ b < a := lt_asymm hab
        have h2 : b ≠ a := ne_of_gt hab
        simp [charListLt, h1, h2]
      · by_cases heq : a = b
        · subst heq
          simp only [charListLt, hab, if_false, if_pos rfl] at h
          simp [charListLt, lt_irrefl, ih bs h]
        · simp [charListLt, hab, heq] at h

theorem charListLt_trans : ∀ xs ys zs : List Char,
    charListLt xs ys = true → charListLt ys zs = true → charListLt xs zs = true := by
  intro xs
  induction xs with
  | nil =>
    intro ys zs h1 h2
    cases ys with
    | nil => simp [charListLt] at h1
    | cons b bs =>
      cases zs with
      | nil => simp [charListLt] at h2
      | cons c cs => rfl
  | cons a as ih =>
    intro ys zs h1 h2
    cases ys with
    | nil => simp [charListLt] at h1
    | cons b bs =>
      cases zs with
      | nil => simp [charListLt] at h2
      | cons c cs =>
        simp only [charListLt] at h1 h2 ⊢
        by_cases hab : a < b
        · by_cases hbc : b < c
          · simp [lt_trans hab hbc]
          · by_cases hbc' : b = c
            · subst hbc'; simp [hab]
            · simp [hbc, hbc'] at h2
        · by_cases hab' : a = b
          · subst hab'
            simp only [hab, if_false, if_pos rfl] at h1
            by_cases hbc : a < c
            · simp [hbc]
            · by_cases hbc' : a = c
              · subst hbc'
                simp only [hbc, if_false, if_pos rfl] at h2
                simp [lt_irrefl, ih bs cs h1 h2]
              · simp [hbc, hbc'] at h2
          · simp [hab, hab'] at h1

theorem stringLt_irrefl (s : String) : stringLt s s = false :=
  charListLt_irrefl s.data

theorem stringLt_asymm (s t : String) (h : stringLt s t = true) : stringLt t s = false :=
  charListLt_asymm s.data t.data h

theorem stringLt_trans (s t u : String) (h1 : stringLt s t = true) (h2 : stringLt t u = true) :
    stringLt s u = true :=
  charListLt_trans s.data t.data u.data h1 h2

theorem insertSortedBy_perm {α : Type} (key : α → String) (a : α) (l : List α) :
    List.Perm (insertSortedBy key a l) (a :: l) := by
  induction l with
  | nil => exact List.Perm.refl _
  | cons b l ih =>
    by_cases h : stringLt (key a) (key b) = true
    · simp only [insertSortedBy]
      rw [if_pos h]
    · simp only [insertSortedBy]
      rw [if_neg h]
      exact (ih.cons b).trans (List.Perm.swap a b l)

theorem insertSortedBy_mem {α : Type} (key : α → String) (a : α) (l : List α) (x : α) :
    x ∈ insertSortedBy key a l ↔ x = a ∨ x ∈ l := by
  rw [(insertSortedBy_perm key a l).mem_iff, List.mem_cons]

theorem insertSortedBy_sorted {α : Type} (key : α → String) (a : α) (l : List α)
    (hl : List.Pairwise (fun x y => stringLt (key y) (key x) = false) l) :
    List.Pairwise (fun x y => stringLt (key y) (key x) = false) (insertSortedBy key a l) := by
  induction l with
  | nil => simp [insertSortedBy]
  | cons b l ih =>
    rw [List.pairwise_cons] at hl
    obtain ⟨hb, hl'⟩ := hl
    by_cases h : stringLt (key a) (key b) = true
    · simp only [insertSortedBy]
      rw [if_pos h, List.pairwise_cons]
      refine ⟨?_, List.pairwise_cons.mpr ⟨hb, hl'⟩⟩
      intro x hx
      rcases List.mem_cons.mp hx with rfl | hx'
      · exact stringLt_asymm _ _ h
      · by_cases hxa : stringLt (key x) (key a) = true
        · have hxb : stringLt (key x) (key b) = true := stringLt_trans _ _ _ hxa h
          rw [hb x hx'] at hxb
          cases hxb
        · simp only [Bool.not_eq_true] at hxa
          exact hxa
    · simp only [insertSortedBy]
      rw [if_neg h, List.pairwise_cons]
      refine ⟨?_, ih hl'⟩
      intro x hx
      rcases (insertSortedBy_mem key a l x).mp hx with rfl | hx'
      · simp only [Bool.not_eq_true] at h
        exact h
      · exact hb x hx'

theorem sortStableBy_foldl_perm {α : Type} (key : α → String) (l : List α) :
    ∀ acc : List α,
      List.Perm (l.foldl (fun acc x => insertSortedBy key x acc) acc) (acc ++ l) := by
  induction l with
  | nil => intro acc; simp
  | cons x l ih =>
    intro acc
    have h1 := ih (insertSortedBy key x acc)
    have h2 : List.Perm ((insertSortedBy key x acc) ++ l) ((x :: acc) ++ l) :=
      (insertSortedBy_perm key x acc).append_right l
    have h3 : List.Perm ((x :: acc) ++ l) (acc ++ x :: l) := List.perm_middle.symm
    simp only [List.foldl_cons]
    exact (h1.trans h2).trans h3

theorem sortStableBy_perm {α : Type} (key : α → String) (l : List α) :
    List.Perm (sortStableBy key l) l := by
  simpa [sortStableBy] using sortStableBy_foldl_perm key l []

theorem sortStableBy_foldl_sorted {α : Type} (key : α → String) (l : List α) :
    ∀ acc : List α, List.Pairwise (fun x y => stringLt (key y) (key x) = false) acc →
      List.Pairwise (fun x y => stringLt (key y) (key x) = false)
        (l.foldl (fun acc x => insertSortedBy key x acc) acc) := by
  induction l with
  | nil => intro acc h; exact h
  | cons x l ih =>
    intro acc h
    exact ih (insertSortedBy key x acc) (insertSortedBy_sorted key x acc h)

theorem sortStableBy_sorted {α : Type} (key : α → String) (l : List α) :
    List.Pairwise (fun x y => stringLt (key y) (key x) = false) (sortStableBy key l) :=
  sortStableBy_foldl_sorted key l [] (List.Pairwise.nil)

theorem insertSortedBy_filter {α : Type} (key : α → String) (a : α) (s : String) (l : List α)
    (hl : List.Pairwise (fun x y => stringLt (key y) (key x) = false) l) :
    (insertSortedBy key a l).filter (fun x => decide (key x = s)) =
      if key a = s then l.filter (fun x => decide (key x = s)) ++ [a]
      else l.filter (fun x => decide (key x = s)) := by
  induction l with
  | nil =>
    by_cases has : key a = s <;> simp [insertSortedBy, has]
  | cons b l ih =>
    rw [List.pairwise_cons] at hl
    obtain ⟨hb, hl'⟩ := hl
    by_cases hab : stringLt (key a) (key b) = true
    · simp only [insertSortedBy, hab, if_true]
      by_cases has : key a = s
      · have hrest : List.filter (fun x => decide (key x = s)) (b :: l) = [] := by
          rw [List.filter_eq_nil_iff]
          intro x hx hxs
          have hkey : key x = key a := by
            have h1 : key x = s := of_decide_eq_true hxs
            rw [h1, has]
          rcases List.mem_cons.mp hx with rfl | hx'
          · rw [hkey, stringLt_irrefl] at hab
            simp at hab
          · have h2 := hb x hx'
            rw [hkey, hab] at h2
            simp at h2
        simp [List.filter_cons, has, hrest]
      · simp [List.filter_cons, has]
    · simp only [insertSortedBy, hab, if_false]
      by_cases hbs : key b = s <;> by_cases has : key a = s <;>
        simp [List.filter_cons, ih hl', hbs, has]

theorem sortStableBy_foldl_filter {α : Type} (key : α → String) (s : String) (l : List α) :
    ∀ acc : List α, List.Pairwise (fun x y => stringLt (key y) (key x) = false) acc →
      (l.foldl (fun acc x => insertSortedBy key x acc) acc).filter (fun x => decide (key x = s)) =
        acc.filter (fun x => decide (key x = s)) ++ l.filter (fun x => decide (key x = s)) := by
  induction l with
  | nil => intro acc h; simp
  | cons x l ih =>
    intro acc h
    have step := ih (insertSortedBy key x acc) (insertSortedBy_sorted key x acc h)
    rw [List.foldl_cons, step, insertSortedBy_filter key x s acc h]
    by_cases hxs : key x = s <;> simp [List.filter_cons, hxs]

theorem sortStableBy_filter {α : Type} (key : α → String) (s : String) (l : List α) :
    (sortStableBy key l).filter (fun x => decide (key x = s)) =
      l.filter (fun x => decide (key x = s)) :=
  by simpa [sortStableBy] using sortStableBy_foldl_filter key s l [] List.Pairwise.nil

theorem chunksAux_join {α : Type} (n : ℕ) :
    ∀ l cur : List α, (chunksAux n l cur).flatten = cur ++ l := by
  intro l
  induction l with
  | nil =>
    intro cur
    by_cases h : cur.isEmpty
    · simp [chunksAux, h, List.isEmpty_iff.mp h]
    · simp [chunksAux, h]
  | cons a l ih =>
    intro cur
    by_cases h : (cur ++ [a]).length = n
    · simp [chunksAux, h, ih]
    · simp only [chunksAux, h, if_false]
      rw [ih (cur ++ [a])]
      simp

theorem chunks_join {α : Type} (n : ℕ) (l : List α) : (chunks n l).flatten = l := by
  simpa using chunksAux_join n l []

theorem chunksAux_dropLast_full {α : Type} (n : ℕ) :
    ∀ l cur : List α, cur.length < n →
      ∀ b ∈ (chunksAux n l cur).dropLast, b.length = n := by
  intro l
  induction l with
  | nil =>
    intro cur _ b hb
    by_cases h : cur.isEmpty <;> simp [chunksAux, h] at hb
  | cons a l ih =>
    intro cur hcur b hb
    by_cases h : (cur ++ [a]).length = n
    · simp only [chunksAux, h, if_true] at hb
      cases hrec : chunksAux n l [] with
      | nil => rw [hrec] at hb; simp at hb
      | cons c cs =>
        rw [hrec, List.dropLast_cons₂] at hb
        rcases List.mem_cons.mp hb with rfl | hb'
        · exact h
        · have hn : 0 < n := by
            rw [← h]; simp
          exact ih [] (by simpa using hn) b (by rw [hrec]; exact hb')
    · simp only [chunksAux, h, if_false] at hb
      have hlen : (cur ++ [a]).length < n := by
        have : (cur ++ [a]).length = cur.length + 1 := by simp
        omega
      exact ih (cur ++ [a]) hlen b hb

theorem chunks_dropLast_full {α : Type} (n : ℕ) (hn : 0 < n) (l : List α) :
    ∀ b ∈ (chunks n l).dropLast, b.length = n :=
  chunksAux_dropLast_full n l [] (by simpa using hn)

theorem writeBatches_nofail (now bs : ℕ) :
    ∀ (batches : List (List Game)) (st : Store) (i : ℕ),
      (∀ b ∈ batches.dropLast, b.length = bs) →
      (writeBatches now bs (fun _ => false) (fun _ => false) st i batches).err = none ∧
      (writeBatches now bs (fun _ => false) (fun _ => false) st i batches).processed =
        (batches.map List.length).sum ∧
      (writeBatches now bs (fun _ => false) (fun _ => false) st i batches).store =
        applyBatches now st batches := by
  intro batches
  induction batches with
  | nil => intro st i _; exact ⟨rfl, rfl, rfl⟩
  | cons b rest ih =>
    intro st i hfull
    have hrest : ∀ b' ∈ rest.dropLast, b'.length = bs := by
      intro b' hb'
      apply hfull
      cases rest with
      | nil => simp at hb'
      | cons c cs =>
        rw [List.dropLast_cons₂]
        exact List.mem_cons_of_mem b hb'
    by_cases hb : b.length = bs
    · have h := ih (applyBatch st b now) (i + 1) hrest
      simp only [writeBatches, hb, if_true, Bool.false_eq_true, if_false]
      refine ⟨h.1, ?_, ?_⟩
      · rw [h.2.1]; simp [hb]
      · rw [h.2.2]; rfl
    · have hnil : rest = [] := by
        cases rest with
        | nil => rfl
        | cons c cs =>
          exfalso
          exact hb (hfull b (by rw [List.dropLast_cons₂]; exact List.mem_cons_self b _))
      subst hnil
      simp only [writeBatches, hb, if_false, Bool.false_eq_true]
      simp [applyBatches]

theorem wb_trace_idx (now bs : ℕ) (ff fr : ℕ → Bool) :
    ∀ (batches : List (List Game)) (st : Store) (i j a : ℕ) (ok : Bool),
      Effect.bulkWrite j a ok ∈ (writeBatches now bs ff fr st i batches).trace → i ≤ j := by
  intro batches
  induction batches with
  | nil => intro st i j a ok h; simp [writeBatches] at h
  | cons b rest ih =>
    intro st i j a ok h
    by_cases hb : b.length = bs
    · by_cases hff : ff i = true
      · by_cases hfr : fr i = true
        · simp [writeBatches, hb, hff, hfr] at h
          rcases h with ⟨rfl, -, -⟩ | ⟨rfl, -, -⟩ <;> exact Nat.le_refl j
        · simp [writeBatches, hb, hff, hfr] at h
          rcases h with ⟨rfl, -, -⟩ | ⟨rfl, -, -⟩ | h'
          · exact Nat.le_refl j
          · exact Nat.le_refl j
          · exact Nat.le_of_succ_le (ih _ (i + 1) j a ok h')
      · simp [writeBatches, hb, hff] at h
        rcases h with ⟨rfl, -, -⟩ | h'
        · exact Nat.le_refl j
        · exact Nat.le_of_succ_le (ih _ (i + 1) j a ok h')
    · by_cases hff : ff i = true
      · simp [writeBatches, hb, hff] at h
        rcases h with ⟨rfl, -, -⟩
        exact Nat.le_refl j
      · simp [writeBatches, hb, hff] at h
        rcases h with ⟨rfl, -, -⟩
        exact Nat.le_refl j

theorem wb_attempts (now bs : ℕ) (ff fr : ℕ → Bool) :
    ∀ (batches : List (List Game)) (st : Store) (i j a : ℕ) (ok : Bool),
      Effect.bulkWrite j a ok ∈ (writeBatches now bs ff fr st i batches).trace →
      a = 1 ∨ a = 2 := by
  intro batches
  induction batches with
  | nil => intro st i j a ok h; simp [writeBatches] at h
  | cons b rest ih =>
    intro st i j a ok h
    by_cases hb : b.length = bs
    · by_cases hff : ff i = true
      · by_cases hfr : fr i = true
        · simp [writeBatches, hb, hff, hfr] at h
          rcases h with ⟨-, rfl, -⟩ | ⟨-, rfl, -⟩
          · exact .inl rfl
          · exact .inr rfl
        · simp [writeBatches, hb, hff, hfr] at h
          rcases h with ⟨-, rfl, -⟩ | ⟨-, rfl, -⟩ | h'
          · exact .inl rfl
          · exact .inr rfl
          · exact ih _ (i + 1) j a ok h'
      · simp [writeBatches, hb, hff] at h
        rcases h with ⟨-, rfl, -⟩ | h'
        · exact .inl rfl
        · exact ih _ (i + 1) j a ok h'
    · by_cases hff : ff i = true
      · simp [writeBatches, hb, hff] at h
        rcases h with ⟨-, rfl, -⟩
        exact .inl rfl
      · simp [writeBatches, hb, hff] at h
        rcases h with ⟨-, rfl, -⟩
        exact .inl rfl

theorem wb_retry_evidence (now bs : ℕ) (ff fr : ℕ → Bool) :
    ∀ (batches : List (List Game)) (st : Store) (i j : ℕ) (ok : Bool),
      Effect.bulkWrite j 2 ok ∈ (writeBatches now bs ff fr st i batches).trace →
      List.IsInfix [Effect.bulkWrite j 1 false, Effect.ping, Effect.bulkWrite j 2 ok]
          (writeBatches now bs ff fr st i batches).trace ∧
      ∃ b, batches[j - i]? = some b ∧ b.length = bs ∧ ff j = true := by
  intro batches
  induction batches with
  | nil => intro st i j ok h; simp [writeBatches] at h
  | cons b rest ih =>
    intro st i j ok h
    by_cases hb : b.length = bs
    · by_cases hff : ff i = true
      · by_cases hfr : fr i = true
        · have htr : (writeBatches now bs ff fr st i (b :: rest)).trace =
              [.ping, .bulkWrite i 1 false, .ping, .bulkWrite i 2 false] := by
            simp [writeBatches, hb, hff, hfr]
          rw [htr] at h ⊢
          simp at h
          obtain ⟨rfl, rfl⟩ := h
          refine ⟨⟨[Effect.ping], [], by simp⟩, b, by simp, hb, hff⟩
        · have htr : (writeBatches now bs ff fr st i (b :: rest)).trace =
              .ping :: .bulkWrite i 1 false :: .ping :: .bulkWrite i 2 true ::
                (writeBatches now bs ff fr (applyBatch st b now) (i + 1) rest).trace := by
            simp [writeBatches, hb, hff, hfr]
          rw [htr] at h ⊢
          simp only [List.mem_cons] at h
          rcases h with h1 | h1 | h1 | h1 | h1
          · simp at h1
          · simp at h1
          · simp at h1
          · simp at h1
            obtain ⟨rfl, rfl⟩ := h1
            refine ⟨⟨[Effect.ping], _, rfl⟩, b, by simp, hb, hff⟩
          · have hij : i + 1 ≤ j := wb_trace_idx now bs ff fr rest _ (i + 1) j 2 ok h1
            obtain ⟨hinf, b', hidx, hlen, hffj⟩ := ih _ (i + 1) j ok h1
            refine ⟨?_, b', ?_, hlen, hffj⟩
            · exact List.infix_cons (List.infix_cons (List.infix_cons (List.infix_cons hinf)))
            · have hsub : j - i = (j - (i + 1)) + 1 := by omega
              rw [hsub]
              simpa using hidx
      · have htr : (writeBatches now bs ff fr st i (b :: rest)).trace =
            .ping :: .bulkWrite i 1 true ::
              (writeBatches now bs ff fr (applyBatch st b now) (i + 1) rest).trace := by
          simp [writeBatches, hb, hff]
        rw [htr] at h ⊢
        simp only [List.mem_cons] at h
        rcases h with h1 | h1 | h1
        · simp at h1
        · simp at h1
        · have hij : i + 1 ≤ j := wb_trace_idx now bs ff fr rest _ (i + 1) j 2 ok h1
          obtain ⟨hinf, b', hidx, hlen, hffj⟩ := ih _ (i + 1) j ok h1
          refine ⟨List.infix_cons (List.infix_cons hinf), b', ?_, hlen, hffj⟩
          have hsub : j - i = (j - (i + 1)) + 1 := by omega
          rw [hsub]
          simpa using hidx
    · by_cases hff : ff i = true
      · have htr : (writeBatches now bs ff fr st i (b :: rest)).trace =
            [.ping, .bulkWrite i 1 false] := by
          simp [writeBatches, hb, hff]
        rw [htr] at h
        simp at h
      · have htr : (writeBatches now bs ff fr st i (b :: rest)).trace =
            [.ping, .bulkWrite i 1 true] := by
          simp [writeBatches, hb, hff]
        rw [htr] at h
        simp at h

theorem wb_fail_full_retry (now bs : ℕ) (ff fr : ℕ → Bool) :
    ∀ (batches : List (List Game)) (st : Store) (i j : ℕ),
      Effect.bulkWrite j 1 false ∈ (writeBatches now bs ff fr st i batches).trace →
      (∃ b', batches[j - i]? = some b' ∧ b'.length = bs) →
      ∃ ok, Effect.bulkWrite j 2 ok ∈ (writeBatches now bs ff fr st i batches).trace := by
  intro batches
  induction batches with
  | nil => intro st i j h _; simp [writeBatches] at h
  | cons b rest ih =>
    intro st i j h hfull
    by_cases hb : b.length = bs
    · by_cases hff : ff i = true
      · by_cases hfr : fr i = true
        · have htr : (writeBatches now bs ff fr st i (b :: rest)).trace =
              [.ping, .bulkWrite i 1 false, .ping, .bulkWrite i 2 false] := by
            simp [writeBatches, hb, hff, hfr]
          rw [htr] at h ⊢
          simp at h
          obtain ⟨rfl, -⟩ := h
          exact ⟨false, by simp⟩
        · have htr : (writeBatches now bs ff fr st i (b :: rest)).trace =
              .ping :: .bulkWrite i 1 false :: .ping :: .bulkWrite i 2 true ::
                (writeBatches now bs ff fr (applyBatch st b now) (i + 1) rest).trace := by
            simp [writeBatches, hb, hff, hfr]
          rw [htr] at h ⊢
          simp only [List.mem_cons] at h
          rcases h with h1 | h1 | h1 | h1 | h1
          · simp at h1
          · simp at h1
            obtain ⟨rfl, -⟩ := h1
            exact ⟨true, by simp⟩
          · simp at h1
          · simp at h1
          · have hij : i + 1 ≤ j := wb_trace_idx now bs ff fr rest _ (i + 1) j 1 false h1
            have hsub : j - i = (j - (i + 1)) + 1 := by omega
            obtain ⟨b', hidx, hlen⟩ := hfull
            rw [hsub] at hidx
            obtain ⟨ok, hmem⟩ := ih _ (i + 1) j h1 ⟨b', by simpa using hidx, hlen⟩
            exact ⟨ok, by simp [hmem]⟩
      · have htr : (writeBatches now bs ff fr st i (b :: rest)).trace =
            .ping :: .bulkWrite i 1 true ::
              (writeBatches now bs ff fr (applyBatch st b now) (i + 1) rest).trace := by
          simp [writeBatches, hb, hff]
        rw [htr] at h ⊢
        simp only [List.mem_cons] at h
        rcases h with h1 | h1 | h1
        · simp at h1
        · simp at h1
        · have hij : i + 1 ≤ j := wb_trace_idx now bs ff fr rest _ (i + 1) j 1 false h1
          have hsub : j - i = (j - (i + 1)) + 1 := by omega
          obtain ⟨b', hidx, hlen⟩ := hfull
          rw [hsub] at hidx
          obtain ⟨ok, hmem⟩ := ih _ (i + 1) j h1 ⟨b', by simpa using hidx, hlen⟩
          exact ⟨ok, by simp [hmem]⟩
    · by_cases hff : ff i = true
      · have htr : (writeBatches now bs ff fr st i (b :: rest)).trace =
            [.ping, .bulkWrite i 1 false] := by
          simp [writeBatches, hb, hff]
        rw [htr] at h
        simp at h
        obtain ⟨rfl, -⟩ := h
        obtain ⟨b', hidx, hlen⟩ := hfull
        simp at hidx
        exact absurd (hidx ▸ hlen) hb
      · have htr : (writeBatches now bs ff fr st i (b :: rest)).trace =
            [.ping, .bulkWrite i 1 true] := by
          simp [writeBatches, hb, hff]
        rw [htr] at h
        simp at h

theorem wb_retry_fail_err (now bs : ℕ) (ff fr : ℕ → Bool) :
    ∀ (batches : List (List Game)) (st : Store) (i j : ℕ),
      Effect.bulkWrite j 2 false ∈ (writeBatches now bs ff fr st i batches).trace →
      (writeBatches now bs ff fr st i batches).err.isSome = true := by
  intro batches
  induction batches with
  | nil => intro st i j h; simp [writeBatches] at h
  | cons b rest ih =>
    intro st i j h
    by_cases hb : b.length = bs
    · by_cases hff : ff i = true
      · by_cases hfr : fr i = true
        · have herr : (writeBatches now bs ff fr st i (b :: rest)).err =
              some "bulk write retry failed" := by
            simp [writeBatches, hb, hff, hfr]
          rw [herr]
          rfl
        · have htr : (writeBatches now bs ff fr st i (b :: rest)).trace =
              .ping :: .bulkWrite i 1 false :: .ping :: .bulkWrite i 2 true ::
                (writeBatches now bs ff fr (applyBatch st b now) (i + 1) rest).trace := by
            simp [writeBatches, hb, hff, hfr]
          have herr : (writeBatches now bs ff fr st i (b :: rest)).err =
              (writeBatches now bs ff fr (applyBatch st b now) (i + 1) rest).err := by
            simp [writeBatches, hb, hff, hfr]
          rw [htr] at h
          rw [herr]
          simp only [List.mem_cons] at h
          rcases h with h1 | h1 | h1 | h1 | h1
          · simp at h1
          · simp at h1
          · simp at h1
          · simp at h1
          · exact ih _ (i + 1) j h1
      · have htr : (writeBatches now bs ff fr st i (b :: rest)).trace =
            .ping :: .bulkWrite i 1 true ::
              (writeBatches now bs ff fr (applyBatch st b now) (i + 1) rest).trace := by
          simp [writeBatches, hb, hff]
        have herr : (writeBatches now bs ff fr st i (b :: rest)).err =
            (writeBatches now bs ff fr (applyBatch st b now) (i + 1) rest).err := by
          simp [writeBatches, hb, hff]
        rw [htr] at h
        rw [herr]
        simp only [List.mem_cons] at h
        rcases h with h1 | h1 | h1
        · simp at h1
        · simp at h1
        · exact ih _ (i + 1) j h1
    · by_cases hff : ff i = true
      · have htr : (writeBatches now bs ff fr st i (b :: rest)).trace =
            [.ping, .bulkWrite i 1 false] := by
          simp [writeBatches, hb, hff]
        rw [htr] at h
        simp at h
      · have htr : (writeBatches now bs ff fr st i (b :: rest)).trace =
            [.ping, .bulkWrite i 1 true] := by
          simp [writeBatches, hb, hff]
        rw [htr] at h
        simp at h

theorem wb_err_committed (now bs : ℕ) (ff fr : ℕ → Bool) :
    ∀ (batches : List (List Game)) (st : Store) (i : ℕ),
      (writeBatches now bs ff fr st i batches).err.isSome = true →
      ∃ k, (writeBatches now bs ff fr st i batches).store =
        applyBatches now st (batches.take k) := by
  intro batches
  induction batches with
  | nil => intro st i h; simp [writeBatches] at h
  | cons b rest ih =>
    intro st i h
    by_cases hb : b.length = bs
    · by_cases hff : ff i = true
      · by_cases hfr : fr i = true
        · refine ⟨0, ?_⟩
          simp [writeBatches, hb, hff, hfr, applyBatches]
        · have hst : (writeBatches now bs ff fr st i (b :: rest)).store =
              (writeBatches now bs ff fr (applyBatch st b now) (i + 1) rest).store := by
            simp [writeBatches, hb, hff, hfr]
          have herr : (writeBatches now bs ff fr st i (b :: rest)).err =
              (writeBatches now bs ff fr (applyBatch st b now) (i + 1) rest).err := by
            simp [writeBatches, hb, hff, hfr]
          rw [herr] at h
          obtain ⟨k, hk⟩ := ih _ (i + 1) h
          refine ⟨k + 1, ?_⟩
          rw [hst, hk, List.take_succ_cons]
          simp [applyBatches]
      · have hst : (writeBatches now bs ff fr st i (b :: rest)).store =
            (writeBatches now bs ff fr (applyBatch st b now) (i + 1) rest).store := by
          simp [writeBatches, hb, hff]
        have herr : (writeBatches now bs ff fr st i (b :: rest)).err =
            (writeBatches now bs ff fr (applyBatch st b now) (i + 1) rest).err := by
          simp [writeBatches, hb, hff]
        rw [herr] at h
        obtain ⟨k, hk⟩ := ih _ (i + 1) h
        refine ⟨k + 1, ?_⟩
        rw [hst, hk, List.take_succ_cons]
        simp [applyBatches]
    · by_cases hff : ff i = true
      · refine ⟨0, ?_⟩
        simp [writeBatches, hb, hff, applyBatches]
      · have herr : (writeBatches now bs ff fr st i (b :: rest)).err = none := by
          simp [writeBatches, hb, hff]
        rw [herr] at h
        simp at h

/-- C10: for every input path whose base filename does not contain the
substring `boardgames_ranks`, `processCsvFile` rejects immediately with the
guard error, before any file read or store operation: the effect trace is
empty and the store (both collections) is returned unchanged. -/
theorem filename_guard_rejects (csvPath : String) (rows : List CsvRow) (st : Store) (now : ℕ)
    (isLocalhost : Bool) (ff fr : ℕ → Bool) (rg rs : RStep → Bool)
    (h : strContainsSub (basename csvPath) "boardgames_ranks" = false) :
    processCsvFile csvPath rows st now isLocalhost ff fr rg rs =
      ⟨st, [], .error "Only boardgames_ranks.csv is supported."⟩ := by
  simp [processCsvFile, h]

/-- Witness for C10 at the concrete path `/data/export.csv`. -/
theorem filename_guard_rejects_witness :
    strContainsSub (basename "/data/export.csv") "boardgames_ranks" = false ∧
    processCsvFile "/data/export.csv" [sampleRowAnt] ⟨[sampleDocZed], []⟩ 3 true
        (fun _ => false) (fun _ => false) (fun _ => false) (fun _ => false) =
      ⟨⟨[sampleDocZed], []⟩, [], .error "Only boardgames_ranks.csv is supported."⟩ :=
  ⟨by decide,
   filename_guard_rejects "/data/export.csv" [sampleRowAnt] ⟨[sampleDocZed], []⟩ 3 true
     (fun _ => false) (fun _ => false) (fun _ => false) (fun _ => false) (by decide)⟩

/-- C5: whenever the diff yields no New and no Changed records, the run
short-circuits: the store is returned unchanged, the effect trace holds only
the index creation, the file read and the snapshot read (no bulk write to
either collection and no resort of either collection), and the resolved
result is `{ totalProcessed: 0, newGamesCount: 0, updatedGamesCount: 0,
noChanges: true }`. -/
theorem empty_changeset_short_circuit (csvPath : String) (rows : List CsvRow) (st : Store)
    (now : ℕ) (isLocalhost : Bool) (ff fr : ℕ → Bool) (rg rs : RStep → Bool)
    (hguard : strContainsSub (basename csvPath) "boardgames_ranks" = true)
    (hnew : (analyzeChanges (processRows rows) (buildMap st.games)).newGames = [])
    (hupd : (analyzeChanges (processRows rows) (buildMap st.games)).updatedGames = []) :
    processCsvFile csvPath rows st now isLocalhost ff fr rg rs =
      ⟨st, [.createIndexes, .readFile, .snapshotRead], .ok ⟨0, 0, 0, some true⟩⟩ ∧
    (processCsvFile csvPath rows st now isLocalhost ff fr rg rs).trace.all
      (fun e => !isWriteOrResort e) = true := by
  have h1 : processCsvFile csvPath rows st now isLocalhost ff fr rg rs =
      ⟨st, [.createIndexes, .readFile, .snapshotRead], .ok ⟨0, 0, 0, some true⟩⟩ := by
    simp [processCsvFile, hguard, runAfterDiff, hnew, hupd]
  refine ⟨h1, ?_⟩
  rw [h1]
  rfl

/-- Witness for C5: running the file `boardgames_ranks.csv` containing only
the Zed row against a store already holding the identical Zed document. -/
theorem empty_changeset_short_circuit_witness :
    processCsvFile "boardgames_ranks.csv" [sampleRowZed] ⟨[sampleDocZed], []⟩ 7 true
        (fun _ => false) (fun _ => false) (fun _ => false) (fun _ => false) =
      ⟨⟨[sampleDocZed], []⟩, [.createIndexes, .readFile, .snapshotRead],
       .ok ⟨0, 0, 0, some true⟩⟩ :=
  (empty_changeset_short_circuit "boardgames_ranks.csv" [sampleRowZed] ⟨[sampleDocZed], []⟩ 7
    true (fun _ => false) (fun _ => false) (fun _ => false) (fun _ => false)
    (by decide) (by decide) (by decide)).1

/-- C2 counterexample: the row with `id = 5` and no name has a truthy id,
yet the decoder drops it (`processRows` yields nothing), contradicting the
claim that a row with an id is yielded even when it lacks a name. -/
theorem decoder_drop_counterexample :
    truthy (decodeRow sampleRowIdOnly).id = true ∧
    processRows [sampleRowIdOnly] = [] :=
  ⟨by decide, by decide⟩

/-- C2 amended: a row is yielded if and only if both its decoded `name` and
its decoded `id` are truthy (non-empty name, nonzero parsed id); a row
lacking either one is dropped. -/
theorem decoder_yield_iff (rows : List CsvRow) :
    processRows rows =
      (rows.filter fun r => truthy (decodeRow r).name && truthy (decodeRow r).id).map
        decodeRow :=
  processRows_eq rows

/-- C3 amended: every error raised inside the body of `resortCollection`
(including a failure of the reinsert after a successful delete) is caught by
its try/catch and merely logged: the function always returns without an
error, so reindex failures are never surfaced to the caller. -/
theorem resort_errors_swallowed {α : Type} (key : α → String) (docs : List α)
    (fails : RStep → Bool) : (resortCollection key docs fails).err = none :=
  rfl

/-- C3 counterexample: with the delete succeeding and the reinsert failing,
the body of `resortCollection` raises an error and leaves the collection
empty, yet `resortCollection` returns no error, and a whole
`processCsvFile` run that hits this failure still resolves successfully
(`totalProcessed = 1`) while the games collection has been wiped - the
failure is swallowed, not surfaced as a run error. -/
theorem resort_swallow_counterexample :
    (resortBody storedGameKey [⟨decodeRow sampleRowAnt, 1, 1⟩]
        (fun s => decide (s = RStep.insertBack))).err = some "insert back failed" ∧
    (resortCollection storedGameKey [⟨decodeRow sampleRowAnt, 1, 1⟩]
        (fun s => decide (s = RStep.insertBack))).main = [] ∧
    (resortCollection storedGameKey [⟨decodeRow sampleRowAnt, 1, 1⟩]
        (fun s => decide (s = RStep.insertBack))).err = none ∧
    (processCsvFile "boardgames_ranks.csv" [sampleRowAnt] ⟨[], []⟩ 5 true (fun _ => false)
        (fun _ => false) (fun s => decide (s = RStep.insertBack)) (fun _ => false)).result =
      .ok ⟨1, 1, 0, none⟩ ∧
    (processCsvFile "boardgames_ranks.csv" [sampleRowAnt] ⟨[], []⟩ 5 true (fun _ => false)
        (fun _ => false) (fun s => decide (s = RStep.insertBack)) (fun _ => false)).store.games =
      [] :=
  ⟨rfl, rfl, rfl, rfl, rfl⟩

/-- C7 counterexample: a record whose `rank` key is absent compared against
a snapshot record whose `rank` is `NaN` - an absent/`NaN` combination - is
marked Changed by `hasGameDataChanged`, because `typeof undefined` is not
`number`, so the strictly-unequal pair takes the non-numeric branch and
returns true; the claim says such a pair compares as equal. -/
theorem absent_vs_nan_counterexample :
    fieldChanged JsVal.undef JsVal.nan = true ∧
    hasGameDataChanged
      ⟨.num 1, .str "A", .undef, .undef, .undef, .undef, .undef, .bool false, .undef⟩
      ⟨.num 1, .str "A", .undef, .nan, .undef, .undef, .undef, .bool false, .undef⟩ = true :=
  ⟨rfl, rfl⟩

/-- C7 amended: in the differ's field comparison, two values that are both
absent or both `NaN` compare as equal; but a mixed combination of an absent
field and a `NaN` value (in either order) marks the record Changed, exactly
as an absent-vs-present difference does. -/
theorem absent_nan_comparison (v : JsVal) :
    fieldChanged JsVal.undef JsVal.undef = false ∧
    fieldChanged JsVal.nan JsVal.nan = false ∧
    fieldChanged JsVal.undef JsVal.nan = true ∧
    fieldChanged JsVal.nan JsVal.undef = true ∧
    (isNaNVal v = false → v ≠ JsVal.undef →
      fieldChanged JsVal.undef v = true ∧ fieldChanged v JsVal.undef = true) ∧
    ∀ g e : Game, (∃ f ∈ fieldsToCompare, f g = JsVal.undef ∧ f e = JsVal.nan) →
      hasGameDataChanged g e = true := by
  refine ⟨rfl, rfl, rfl, rfl, ?_, ?_⟩
  · intro h1 h2
    cases v with
    | undef => exact absurd rfl h2
    | nan => exact Bool.noConfusion h1
    | num q => exact ⟨rfl, rfl⟩
    | str s => exact ⟨rfl, rfl⟩
    | bool b => exact ⟨rfl, rfl⟩
  · intro g e h
    obtain ⟨f, hf, hgu, hen⟩ := h
    apply List.any_eq_true.mpr
    refine ⟨f, hf, ?_⟩
    rw [hgu, hen]
    rfl

/-- Witness for C7 amended: a present string against an absent value is
Changed, and a record pair differing only by an absent-vs-`NaN`
`bayes_average` is Changed. -/
theorem absent_nan_comparison_witness :
    (fieldChanged JsVal.undef (JsVal.str "x") = true ∧
     fieldChanged (JsVal.str "x") JsVal.undef = true) ∧
    hasGameDataChanged
      ⟨.num 3, .str "B", .undef, .undef, .undef, .undef, .undef, .bool true, .undef⟩
      ⟨.num 3, .str "B", .undef, .undef, .nan, .undef, .undef, .bool true, .undef⟩ = true :=
  ⟨(absent_nan_comparison (JsVal.str "x")).2.2.2.2.1 rfl (by decide),
   (absent_nan_comparison JsVal.undef).2.2.2.2.2
     ⟨.num 3, .str "B", .undef, .undef, .undef, .undef, .undef, .bool true, .undef⟩
     ⟨.num 3, .str "B", .undef, .undef, .nan, .undef, .undef, .bool true, .undef⟩
     ⟨Game.bayes_average, by simp [fieldsToCompare], rfl, rfl⟩⟩

theorem updateFirst_none {α : Type} (p : α → Bool) (f : α → α) :
    ∀ l : List α, (∀ a ∈ l, p a = false) → updateFirst p f l = (l, false) := by
  intro l
  induction l with
  | nil => intro _; rfl
  | cons a l ih =>
    intro h
    have ha : p a = false := h a (List.mem_cons_self a l)
    have hl : updateFirst p f l = (l, false) := ih fun b hb => h b (List.mem_cons_of_mem a hb)
    simp [updateFirst, ha, hl]

theorem updateFirst_found {α : Type} (p : α → Bool) (f : α → α) (d : α) (hd : p d = true) :
    ∀ (pre post : List α), (∀ a ∈ pre, p a = false) →
      updateFirst p f (pre ++ d :: post) = (pre ++ f d :: post, true) := by
  intro pre
  induction pre with
  | nil =>
    intro post _
    simp [updateFirst, hd]
  | cons a pre ih =>
    intro post h
    have ha : p a = false := h a (List.mem_cons_self a pre)
    have hrec := ih post fun b hb => h b (List.mem_cons_of_mem a hb)
    simp [updateFirst, ha, hrec]

/-- C6: the upserts issued by the batch writer set `date_updated` to the
current timestamp on every write and set `date_created` only on the insert
path.  A record whose `id` has no match is appended with
`date_created = date_updated = now`; a record matching an existing document
rewrites that document with `$set`-merged fields and `date_updated = now`
while `date_created` keeps its original value, and the same holds for the
mirrored search-collection upsert. -/
theorem upsert_timestamps (g : Game) (now : ℕ) :
    (∀ coll : List StoredGame, (∀ d ∈ coll, (d.data.id == g.id) = false) →
      applyGameUpsert coll g now = coll ++ [⟨g, now, now⟩]) ∧
    (∀ (pre post : List StoredGame) (d : StoredGame), (d.data.id == g.id) = true →
      (∀ d' ∈ pre, (d'.data.id == g.id) = false) →
      applyGameUpsert (pre ++ d :: post) g now =
        pre ++ ⟨mergeGame d.data g, d.date_created, now⟩ :: post) ∧
    (∀ coll : List StoredSearch, (∀ d ∈ coll, (d.id == g.id) = false) →
      applySearchUpsert coll g now = coll ++ [⟨g.id, g.name, now, now⟩]) ∧
    (∀ (pre post : List StoredSearch) (d : StoredSearch), (d.id == g.id) = true →
      (∀ d' ∈ pre, (d'.id == g.id) = false) →
      applySearchUpsert (pre ++ d :: post) g now =
        pre ++ ⟨g.id, g.name, d.date_created, now⟩ :: post) := by
  refine ⟨?_, ?_, ?_, ?_⟩
  · intro coll hnone
    unfold applyGameUpsert
    rw [updateFirst_none _ _ coll hnone]
    rfl
  · intro pre post d hd hpre
    unfold applyGameUpsert
    rw [updateFirst_found _ _ d hd pre post hpre]
    rfl
  · intro coll hnone
    unfold applySearchUpsert
    rw [updateFirst_none _ _ coll hnone]
    rfl
  · intro pre post d hd hpre
    unfold applySearchUpsert
    rw [updateFirst_found _ _ d hd pre post hpre]
    rfl

/-- Witness for C6 at a concrete game: a fresh insert carries equal
timestamps, and an update of the document previously written at times
(3, 4) keeps `date_created = 3` while `date_updated` advances to 9. -/
theorem upsert_timestamps_witness :
    applyGameUpsert [] sampleGame 9 = [⟨sampleGame, 9, 9⟩] ∧
    applyGameUpsert [⟨sampleGame, 3, 4⟩] sampleGame 9 =
      [⟨mergeGame sampleGame sampleGame, 3, 9⟩] := by
  have h := upsert_timestamps sampleGame 9
  refine ⟨h.1 [] (by simp), ?_⟩
  have h2 := h.2.1 [] [] ⟨sampleGame, 3, 4⟩ (by decide) (by simp)
  simpa using h2

/-- C1: for every decoded record, the differ classifies it New when its
`id` has no match in the snapshot; when the snapshot holds a match (the
snapshot being free of `NaN` sentinels, as the data model stores absent
fields rather than `NaN`), the record is classified Unchanged - in neither
the New nor the Changed partition - exactly when every field of the fixed
comparison set matches within the `0.001` absolute tolerance (`valMatches`),
and classified Changed when some compared field differs beyond it. -/
theorem differ_classification (rows : List CsvRow) (existing : List StoredGame)
    (hnan : ∀ d ∈ existing, gameNanFree d.data = true) :
    ∀ g ∈ processRows rows,
      ((buildMap existing g.id = none →
          g ∈ (analyzeChanges (processRows rows) (buildMap existing)).newGames) ∧
       ∀ d, buildMap existing g.id = some d →
         (((fieldsToCompare.all fun f => valMatches (f g) (f d.data)) = true →
             g ∉ (analyzeChanges (processRows rows) (buildMap existing)).newGames ∧
             g ∉ (analyzeChanges (processRows rows) (buildMap existing)).updatedGames) ∧
          ((fieldsToCompare.all fun f => valMatches (f g) (f d.data)) = false →
             g ∈ (analyzeChanges (processRows rows) (buildMap existing)).updatedGames))) := by
  intro g hg
  have hgnan : gameNanFree g = true := processRows_nanFree rows g hg
  rw [analyzeChanges_eq]
  constructor
  · intro hnone
    exact List.mem_filter.mpr ⟨hg, by simp [isNewPred, hnone]⟩
  · intro d hd
    have hdnan : gameNanFree d.data = true := hnan d (buildMap_mem existing g.id d hd)
    have hch := hasChanged_iff_not_matches g d.data hgnan hdnan
    constructor
    · intro hall
      constructor
      · intro hmem
        have h2 := (List.mem_filter.mp hmem).2
        simp [isNewPred, hd] at h2
      · intro hmem
        have h2 := (List.mem_filter.mp hmem).2
        simp only [isChangedPred, hd] at h2
        rw [hch, hall] at h2
        simp at h2
    · intro hall
      refine List.mem_filter.mpr ⟨hg, ?_⟩
      simp only [isChangedPred, hd]
      rw [hch, hall]
      rfl

/-- Witness for C1: the Ant row lands in `newGames` against an empty
snapshot, and the Zed row against its identical snapshot document is in
neither partition (Unchanged). -/
theorem differ_classification_witness :
    decodeRow sampleRowAnt ∈
      (analyzeChanges (processRows [sampleRowAnt]) (buildMap [])).newGames ∧
    (decodeRow sampleRowZed ∉
        (analyzeChanges (processRows [sampleRowZed]) (buildMap [sampleDocZed])).newGames ∧
     decodeRow sampleRowZed ∉
        (analyzeChanges (processRows [sampleRowZed]) (buildMap [sampleDocZed])).updatedGames) := by
  constructor
  · have h := differ_classification [sampleRowAnt] [] (by simp)
    exact (h (decodeRow sampleRowAnt) (by decide)).1 (by decide)
  · have h := differ_classification [sampleRowZed] [sampleDocZed] (by decide)
    exact ((h (decodeRow sampleRowZed) (by decide)).2 sampleDocZed (by decide)).1 (by decide)

/-- C8 amended: the list handed to the batch writer is a permutation of
`newGames ++ updatedGames`, sorted by the case-insensitive name key, and
stable with respect to that concatenation: for every key value, the records
tying on it appear in the order of `newGames ++ updatedGames` - that is,
New records precede Changed records of equal name, each class keeping the
source file's iteration order, rather than ties following the source order
across classes. -/
theorem sort_stable_by_name (records : List Game) (existing : List StoredGame) :
    List.Perm
      (gamesToProcess (analyzeChanges records (buildMap existing)))
      ((analyzeChanges records (buildMap existing)).newGames ++
        (analyzeChanges records (buildMap existing)).updatedGames) ∧
    List.Pairwise (fun a b => stringLt (gameKey b) (gameKey a) = false)
      (gamesToProcess (analyzeChanges records (buildMap existing))) ∧
    ∀ s : String,
      (gamesToProcess (analyzeChanges records (buildMap existing))).filter
          (fun g => decide (gameKey g = s)) =
        ((analyzeChanges records (buildMap existing)).newGames ++
          (analyzeChanges records (buildMap existing)).updatedGames).filter
          (fun g => decide (gameKey g = s)) :=
  ⟨sortStableBy_perm gameKey _, sortStableBy_sorted gameKey _,
   fun s => sortStableBy_filter gameKey s _⟩

/-- C8 counterexample: the source file lists the Changed record (id 2, name
Xa) before the New record (id 1, name Xa); their names tie under the
comparator, yet the list handed to the batch writer puts the New record
first - the tie is broken by the New-before-Changed concatenation, not by
the source file's iteration order, contradicting the claim. -/
theorem sort_tiebreak_counterexample :
    processRows [sampleRowXaChanged, sampleRowXaNew] =
      [decodeRow sampleRowXaChanged, decodeRow sampleRowXaNew] ∧
    gameKey (decodeRow sampleRowXaNew) = gameKey (decodeRow sampleRowXaChanged) ∧
    (analyzeChanges (processRows [sampleRowXaChanged, sampleRowXaNew])
        (buildMap [sampleDocXa])).newGames = [decodeRow sampleRowXaNew] ∧
    (analyzeChanges (processRows [sampleRowXaChanged, sampleRowXaNew])
        (buildMap [sampleDocXa])).updatedGames = [decodeRow sampleRowXaChanged] ∧
    gamesToProcess (analyzeChanges (processRows [sampleRowXaChanged, sampleRowXaNew])
        (buildMap [sampleDocXa])) =
      [decodeRow sampleRowXaNew, decodeRow sampleRowXaChanged] :=
  ⟨rfl, rfl, rfl, rfl, rfl⟩

/-- C4 amended: for the batch writer, (1) no batch is ever attempted more
than twice; (2) a second attempt happens only for a full-size batch whose
first attempt failed, and it is immediately preceded by a connectivity ping
after the failed write; (3) a full-size batch whose first attempt failed is
always retried; (4) a failed retry aborts the run with an error; (5) on an
abort, the store holds exactly the writes of the batches committed before
the failure (no rollback).  The final partial batch is the exception to the
claim: it is written outside the try/catch and is never retried (see the
counterexample). -/
theorem batch_retry_discipline (now bs : ℕ) (ff fr : ℕ → Bool) (st : Store)
    (batches : List (List Game)) :
    (∀ j a : ℕ, ∀ ok : Bool,
      Effect.bulkWrite j a ok ∈ (writeBatches now bs ff fr st 0 batches).trace →
      a = 1 ∨ a = 2) ∧
    (∀ j : ℕ, ∀ ok : Bool,
      Effect.bulkWrite j 2 ok ∈ (writeBatches now bs ff fr st 0 batches).trace →
      List.IsInfix [Effect.bulkWrite j 1 false, Effect.ping, Effect.bulkWrite j 2 ok]
          (writeBatches now bs ff fr st 0 batches).trace ∧
      ∃ b, batches[j]? = some b ∧ b.length = bs ∧ ff j = true) ∧
    (∀ j : ℕ,
      Effect.bulkWrite j 1 false ∈ (writeBatches now bs ff fr st 0 batches).trace →
      (∃ b, batches[j]? = some b ∧ b.length = bs) →
      ∃ ok, Effect.bulkWrite j 2 ok ∈ (writeBatches now bs ff fr st 0 batches).trace) ∧
    (∀ j : ℕ,
      Effect.bulkWrite j 2 false ∈ (writeBatches now bs ff fr st 0 batches).trace →
      (writeBatches now bs ff fr st 0 batches).err.isSome = true) ∧
    ((writeBatches now bs ff fr st 0 batches).err.isSome = true →
      ∃ k, (writeBatches now bs ff fr st 0 batches).store =
        applyBatches now st (batches.take k)) := by
  refine ⟨?_, ?_, ?_, ?_, ?_⟩
  · intro j a ok h
    exact wb_attempts now bs ff fr batches st 0 j a ok h
  · intro j ok h
    have h1 := wb_retry_evidence now bs ff fr batches st 0 j ok h
    simpa using h1
  · intro j h hfull
    apply wb_fail_full_retry now bs ff fr batches st 0 j h
    simpa using hfull
  · intro j h
    exact wb_retry_fail_err now bs ff fr batches st 0 j h
  · intro h
    exact wb_err_committed now bs ff fr batches st 0 h

set_option maxRecDepth 4000 in
/-- Witness for C4 amended: a single full batch of 500 records whose first
attempt failed was retried (an attempt-2 event exists in the trace). -/
theorem batch_retry_discipline_witness :
    ∃ ok, Effect.bulkWrite 0 2 ok ∈
      (writeBatches 5 500 (fun _ => true) (fun _ => true) ⟨[], []⟩ 0
        [List.replicate 500 sampleGame]).trace :=
  (batch_retry_discipline 5 500 (fun _ => true) (fun _ => true) ⟨[], []⟩
      [List.replicate 500 sampleGame]).2.2.1 0 (by decide)
    ⟨List.replicate 500 sampleGame, by decide, by decide⟩

/-- C4 counterexample: a run whose only batch is the final partial batch
(one record, batch size 500).  Its write fails and the run aborts with the
rejection immediately: the trace holds a single write attempt for batch 0
and no attempt 2, even though the retry oracle would have let a retry
succeed - contradicting the claim that every batch write failure triggers
exactly one retry. -/
theorem partial_batch_no_retry_counterexample :
    processCsvFile "boardgames_ranks.csv" [sampleRowAnt] ⟨[], []⟩ 5 true (fun _ => true)
        (fun _ => false) (fun _ => false) (fun _ => false) =
      ⟨⟨[], []⟩, [.createIndexes, .readFile, .snapshotRead, .ping, .bulkWrite 0 1 false],
       .error "bulk write failed"⟩ ∧
    Effect.bulkWrite 0 2 true ∉
      [Effect.createIndexes, Effect.readFile, Effect.snapshotRead, Effect.ping,
       Effect.bulkWrite 0 1 false] ∧
    Effect.bulkWrite 0 2 false ∉
      [Effect.createIndexes, Effect.readFile, Effect.snapshotRead, Effect.ping,
       Effect.bulkWrite 0 1 false] :=
  ⟨rfl, by decide, by decide⟩

theorem runAfterDiff_result_nofail (A : ChangesAnalysis) (st : Store) (now bs : ℕ)
    (hbs : 0 < bs) (hc : (A.newGames.isEmpty && A.updatedGames.isEmpty) = false) :
    (runAfterDiff A st now bs (fun _ => false) (fun _ => false) (fun _ => false)
        (fun _ => false)).result =
      .ok ⟨A.newGames.length + A.updatedGames.length, A.newGames.length,
           A.updatedGames.length, none⟩ := by
  have hfull := chunks_dropLast_full bs hbs (gamesToProcess A)
  obtain ⟨he, hp, -⟩ := writeBatches_nofail now bs (chunks bs (gamesToProcess A)) st 0 hfull
  have hlen : ((chunks bs (gamesToProcess A)).map List.length).sum =
      (gamesToProcess A).length := by
    have h2 := List.length_flatten (chunks bs (gamesToProcess A))
    rw [chunks_join] at h2
    exact h2.symm
  have hglen : (gamesToProcess A).length = A.newGames.length + A.updatedGames.length := by
    have hperm := (sortStableBy_perm gameKey (A.newGames ++ A.updatedGames)).length_eq
    simpa [gamesToProcess] using hperm
  simp only [runAfterDiff, hc, Bool.false_eq_true, if_false, he]
  rw [hp, hlen, hglen]

/-- C9 amended: a successful run resolves with an object holding only
`totalProcessed` (the count of records written), `newGamesCount` and
`updatedGamesCount`; the `noChanges` flag is present (and true) only on the
no-change short-circuit, whose counts are all zero.  No unchanged-record
count and no total-scanned count appear in either result, and on the
short-circuit `totalProcessed` is 0 rather than the number of rows
scanned. -/
theorem run_result_fields (csvPath : String) (rows : List CsvRow) (st : Store) (now : ℕ)
    (isLocalhost : Bool)
    (hguard : strContainsSub (basename csvPath) "boardgames_ranks" = true) :
    (processCsvFile csvPath rows st now isLocalhost (fun _ => false) (fun _ => false)
        (fun _ => false) (fun _ => false)).result =
      (if (analyzeChanges (processRows rows) (buildMap st.games)).newGames.isEmpty ∧
          (analyzeChanges (processRows rows) (buildMap st.games)).updatedGames.isEmpty then
        .ok ⟨0, 0, 0, some true⟩
      else
        .ok ⟨(analyzeChanges (processRows rows) (buildMap st.games)).newGames.length +
              (analyzeChanges (processRows rows) (buildMap st.games)).updatedGames.length,
             (analyzeChanges (processRows rows) (buildMap st.games)).newGames.length,
             (analyzeChanges (processRows rows) (buildMap st.games)).updatedGames.length,
             none⟩) := by
  by_cases hc : ((analyzeChanges (processRows rows) (buildMap st.games)).newGames.isEmpty &&
      (analyzeChanges (processRows rows) (buildMap st.games)).updatedGames.isEmpty) = true
  · rw [if_pos (Bool.and_eq_true_iff.mp hc)]
    simp [processCsvFile, hguard, runAfterDiff, hc]
  · have hc' : ((analyzeChanges (processRows rows) (buildMap st.games)).newGames.isEmpty &&
        (analyzeChanges (processRows rows) (buildMap st.games)).updatedGames.isEmpty) = false := by
      simpa using hc
    have hneg : ¬((analyzeChanges (processRows rows) (buildMap st.games)).newGames.isEmpty = true ∧
        (analyzeChanges (processRows rows) (buildMap st.games)).updatedGames.isEmpty = true) := by
      rw [← Bool.and_eq_true_iff]
      exact hc
    rw [if_neg hneg]
    have hbs : 0 < (if isLocalhost then 500 else 1000) := by
      cases isLocalhost <;> norm_num
    have h1 := runAfterDiff_result_nofail (analyzeChanges (processRows rows) (buildMap st.games))
      st now (if isLocalhost then 500 else 1000) hbs hc'
    simpa [processCsvFile, hguard] using h1

/-- Witness for C9 amended: a successful run with one new record resolves
with `totalProcessed = 1`, counts (1, 0), and no `noChanges` key. -/
theorem run_result_fields_witness :
    (processCsvFile "boardgames_ranks.csv" [sampleRowAnt] ⟨[], []⟩ 5 true (fun _ => false)
        (fun _ => false) (fun _ => false) (fun _ => false)).result =
      .ok ⟨1, 1, 0, none⟩ := by
  rw [run_result_fields "boardgames_ranks.csv" [sampleRowAnt] ⟨[], []⟩ 5 true (by decide)]
  rfl

/-- C9 counterexample: a successful run that scanned two rows (one New, one
Unchanged) resolves with `{ totalProcessed: 1, newGamesCount: 1,
updatedGamesCount: 0 }` and `noChanges` absent (`none`): the result of this
successful run carries no unchanged-record count (the analysis counted 1
unchanged record, reported nowhere), no total-scanned count (2 rows were
scanned, while the only total in the result is the written count 1), and no
`noChanges` boolean - contradicting the claim that every successful run
returns all five fields. -/
theorem run_result_missing_fields_counterexample :
    (processCsvFile "boardgames_ranks.csv" [sampleRowAnt, sampleRowZed] ⟨[sampleDocZed], []⟩ 5
        true (fun _ => false) (fun _ => false) (fun _ => false) (fun _ => false)).result =
      .ok ⟨1, 1, 0, none⟩ ∧
    (analyzeChanges (processRows [sampleRowAnt, sampleRowZed])
        (buildMap [sampleDocZed])).unchangedCount = 1 ∧
    [sampleRowAnt, sampleRowZed].length = 2 :=
  ⟨rfl, rfl, rfl⟩
